import Mathlib

/-!
Verification of the FFMPEG_TIMESLAP encoding-pipeline core.

This file gives a shallow embedding, in Lean 4, of the pure core of the
repository `numi84/FFMPEG_TIMESLAP`:

* `src/ffmpeg_timeslap/core/sequence_detector.py` (gap detection, sequence
  metadata, concat-manifest generation),
* `src/ffmpeg_timeslap/utils/aspect_ratio.py` (ratio parsing and the
  constrained-rectangle solver),
* `src/ffmpeg_timeslap/core/command_builder.py` (the FFmpeg argument-list
  builder and its filter graph),
* `src/ffmpeg_timeslap/core/progress_parser.py` (progress-line parsing),
* `src/ffmpeg_timeslap/core/encoder.py` (the completion step of the
  process orchestrator),

and proves (or refutes) the claims of the specification against it.

Modelling conventions:
* Python `int` is modelled as `ℤ` (or `ℕ` where the source value is a count
  or comes from a digit string).
* Python `float` arithmetic is idealised as exact arithmetic on `ℚ`;
  Python's `round` (round-half-to-even) is modelled exactly by `pyRound`.
* Filesystem and subprocess effects are not modelled; the pure functions
  that consume their results take those results as explicit arguments.
* Strings are modelled as Lean `String`; where the source uses Python
  regular expressions or `str.split`, the embedding implements the same
  scanning directly on `List Char`.
-/

/-! ## sequence_detector.py -/

/-- `SequenceInfo` from `core/models.py` (lines 8-33): metadata of a detected
image sequence. The two `@property` helpers (`dimensions_str`, `range_str`)
are presentation-only and not modelled. The concat-file path is modelled as
the path string. -/
structure SequenceInfo where
  pattern : String
  count : ℕ
  start_number : ℕ
  end_number : ℕ
  image_width : ℕ
  image_height : ℕ
  image_format : String
  has_gaps : Bool
  gaps : List ℕ
  needs_padding : Bool
  use_concat : Bool
  concat_file : Option String
deriving Repr, DecidableEq

/-- `detect_gaps` from `core/sequence_detector.py` (lines 151-170).
The Python code computes `sorted(set(range(min(numbers), max(numbers)+1)) -
set(numbers))`; the ascending enumeration of that set difference is exactly
`(List.range' lo (hi+1-lo)).filter (fun n => ¬ numbers.contains n)` where
`lo`/`hi` are the minimum/maximum of the (non-empty) list, here computed by
folding as Python's `min`/`max` builtins do. Frame numbers come from digit
strings, hence `ℕ`. -/
def detect_gaps (numbers : List ℕ) : Bool × List ℕ :=
  match numbers with
  | [] => (false, [])
  | n :: rest =>
    let lo := rest.foldl Nat.min n
    let hi := rest.foldl Nat.max n
    let missing := (List.range' lo (hi + 1 - lo)).filter
      (fun m => ¬ (n :: rest).contains m)
    (missing.length > 0, missing)

/-- The `SequenceInfo`-construction part of `detect_sequence`
(`core/sequence_detector.py`, lines 37-71), taking as explicit inputs the
data that the surrounding code obtains from the filesystem: the naming
pattern `(pre, padding, ext, numbers)` returned by `analyze_naming_pattern`
(which guarantees `numbers ≠ []`), the file count, and the first image's
width/height/format from `get_image_info`. For the (unreachable) empty
`numbers` the minimum/maximum fold seeds with `0`. -/
def mkSequenceInfo (pre : String) (padding : ℕ) (ext : String)
    (numbers : List ℕ) (count width height : ℕ) (fmt : String) :
    SequenceInfo :=
  let ffmpeg_pattern :=
    if padding > 0 then pre ++ "%0" ++ toString padding ++ "d" ++ ext
    else pre ++ "%d" ++ ext
  let hg := (detect_gaps numbers).1
  let gs := (detect_gaps numbers).2
  { pattern := ffmpeg_pattern
    count := count
    start_number := numbers.tail.foldl Nat.min (numbers.headD 0)
    end_number := numbers.tail.foldl Nat.max (numbers.headD 0)
    image_width := width
    image_height := height
    image_format := fmt
    has_gaps := hg
    gaps := gs
    needs_padding := width % 2 ≠ 0 || height % 2 ≠ 0
    use_concat := hg
    concat_file := none }

/-! ## utils/aspect_ratio.py -/

/-- The `while b: a, b = b, a % b` Euclidean loop of `gcd` in
`utils/aspect_ratio.py` (lines 7-20). All call sites pass the non-negative
components of a ratio, so the loop is modelled on `ℕ`. -/
def pyGcd (a b : ℕ) : ℕ :=
  if b = 0 then a else pyGcd b (a % b)
termination_by b
decreasing_by exact Nat.mod_lt _ (by omega)

/-- The loop taken one step at a time agrees with `Nat.gcd` (with swapped
arguments); used to evaluate `pyGcd` in closed computations. -/
theorem pyGcd_eq_gcd (a b : ℕ) : pyGcd a b = Nat.gcd b a := by
  induction b using Nat.strong_induction_on generalizing a with
  | _ b ih =>
    rw [pyGcd]
    by_cases h : b = 0
    · simp [h]
    · rw [if_neg h, ih _ (Nat.mod_lt _ (by omega))]
      exact (Nat.gcd_rec b a).symm

/-- `simplify_ratio` from `utils/aspect_ratio.py` (lines 23-42): divide both
components by their gcd; `(0, 0)` if either is `0`. -/
def simplify_ratio (width height : ℕ) : ℕ × ℕ :=
  if width = 0 ∨ height = 0 then (0, 0)
  else
    let divisor := pyGcd width height
    (width / divisor, height / divisor)

/-- Digit-string value, as Python's `int`/`float` literal reading does. -/
def digitsToNat (cs : List Char) : ℕ :=
  cs.foldl (fun a c => a * 10 + (c.toNat - '0'.toNat)) 0

/-- Exact model of Python `float(part)` restricted to plain unsigned decimal
literals `digits`, `digits.digits`, `.digits` or `digits.` (the ratio-string
grammar the application uses). The result `(v, d)` represents the exact
value `v / 10 ^ d`, with `d` the number of digits after the decimal point.
Exotic inputs Python's `float` would also accept (signs, exponents,
whitespace, `inf`/`nan`) are treated as non-numeric; IEEE-754 rounding of
the source is idealised as exact decimal arithmetic. -/
def parseDecimal (cs : List Char) : Option (ℕ × ℕ) :=
  let intPart := cs.takeWhile Char.isDigit
  let rest := cs.dropWhile Char.isDigit
  match rest with
  | [] => if intPart.isEmpty then none else some (digitsToNat intPart, 0)
  | c :: fracCs =>
    if c = '.' ∧ fracCs.all Char.isDigit ∧ (¬ intPart.isEmpty ∨ fracCs ≠ []) then
      some (digitsToNat intPart * 10 ^ fracCs.length + digitsToNat fracCs,
        fracCs.length)
    else none

/-- Python `str.split(sep)` for a one-character separator, on char lists. -/
def splitCharList (sep : Char) : List Char → List (List Char)
  | [] => [[]]
  | c :: rest =>
    match splitCharList sep rest with
    | [] => [[]]
    | g :: gs => if c = sep then [] :: g :: gs else (c :: g) :: gs

/-- The number of decimal places in Python's `str(float)` shortest
representation of the fractional value `v / 10 ^ d`: `d` with trailing
zero digits dropped. -/
def minimalDecimals (v : ℕ) : ℕ → ℕ
  | 0 => 0
  | d + 1 => if v % 10 = 0 then minimalDecimals (v / 10) d else d + 1

/-- `parse_ratio_string` from `utils/aspect_ratio.py` (lines 45-92).
Mirrors the source: reject when `":"` is absent or the split does not give
exactly two parts or a part is not numeric; when either side has a non-zero
fractional part (`w_float % 1 != 0 or h_float % 1 != 0`), scale both sides
by `10 ** decimals` where `decimals` is the larger decimal-place count of
the two `str(float)` representations (`minimalDecimals`), else truncate
both to integers; finally `simplify_ratio`. A Python `ValueError` is the
`Except.error` case. `int(w_float * multiplier)` is idealised as exact
(the scaled value is an integer by construction of `decimals`). -/
def parse_ratio_string (s : String) : Except String (ℕ × ℕ) :=
  if ¬ s.data.contains ':' then .error ("Invalid ratio format: " ++ s)
  else
    match splitCharList ':' s.data with
    | [wPart, hPart] =>
      match parseDecimal wPart, parseDecimal hPart with
      | some (wv, wd), some (hv, hd) =>
        if ¬ (10 ^ wd ∣ wv) ∨ ¬ (10 ^ hd ∣ hv) then
          let decimals := max (minimalDecimals wv wd) (minimalDecimals hv hd)
          let w_int := wv * 10 ^ decimals / 10 ^ wd
          let h_int := hv * 10 ^ decimals / 10 ^ hd
          .ok (simplify_ratio w_int h_int)
        else
          .ok (simplify_ratio (wv / 10 ^ wd) (hv / 10 ^ hd))
      | _, _ => .error ("Invalid ratio format: " ++ s)
    | _ => .error ("Invalid ratio format: " ++ s)

/-- Python's builtin `round` on an exact rational: round half to even. -/
def pyRound (q : ℚ) : ℤ :=
  let f := ⌊q⌋
  let r := q - f
  if r < 1 / 2 then f
  else if 1 / 2 < r then f + 1
  else if f % 2 = 0 then f else f + 1

/-- Python `(t // 2) * 2` (floor division), the round-down-to-even step. -/
def pyEven (t : ℤ) : ℤ := t.fdiv 2 * 2

/-- `calculate_height_from_width` from `utils/aspect_ratio.py`
(lines 95-121). Every caller in the repository uses the default
`round_to_even=True`, so the flag is inlined. -/
def calculate_height_from_width (width ratio_w ratio_h : ℤ) : ℤ :=
  if ratio_w = 0 then 32
  else max 32 (pyEven (pyRound ((width * ratio_h : ℤ) / (ratio_w : ℚ))))

/-- `calculate_width_from_height` from `utils/aspect_ratio.py`
(lines 124-150), the mirror of `calculate_height_from_width`. -/
def calculate_width_from_height (height ratio_w ratio_h : ℤ) : ℤ :=
  if ratio_h = 0 then 32
  else max 32 (pyEven (pyRound ((height * ratio_w : ℤ) / (ratio_h : ℚ))))

/-- The dimension-selection part of `constrain_rect_to_ratio`
(`utils/aspect_ratio.py`, lines 180-223): pick width-as-base if it fits,
else height-as-base, else scale down by the more constraining bound and
recompute the other dimension; then round both down to even and floor at
32. -/
def constrainSize (w h ratio_w ratio_h max_w max_h : ℤ) : ℤ × ℤ :=
  let height_from_width := calculate_height_from_width w ratio_w ratio_h
  let width_from_height := calculate_width_from_height h ratio_w ratio_h
  let wh :=
    if height_from_width ≤ max_h ∧ w ≤ max_w then (w, height_from_width)
    else if width_from_height ≤ max_w ∧ h ≤ max_h then (width_from_height, h)
    else
      let width_ratio : ℚ := if 0 < w then (max_w : ℚ) / (w : ℚ) else 1
      let height_ratio : ℚ := if 0 < h then (max_h : ℚ) / (h : ℚ) else 1
      if width_ratio < height_ratio then
        let nw := max_w
        let nh := calculate_height_from_width nw ratio_w ratio_h
        if max_h < nh then
          (calculate_width_from_height max_h ratio_w ratio_h, max_h)
        else (nw, nh)
      else
        let nh := max_h
        let nw := calculate_width_from_height nh ratio_w ratio_h
        if max_w < nw then
          (max_w, calculate_height_from_width max_w ratio_w ratio_h)
        else (nw, nh)
  (max 32 (pyEven wh.1), max 32 (pyEven wh.2))

/-- The anchor-based repositioning of `constrain_rect_to_ratio`
(`utils/aspect_ratio.py`, lines 225-247): the pre-clamp position of the
resized rectangle relative to the original one (unknown anchors default to
top-left, as the source's final `else` does). Python's `x + w // 2` binds
as `x + (w // 2)`. -/
def anchorPos (anchor : String) (x y w h new_w new_h : ℤ) : ℤ × ℤ :=
  if anchor = "center" then
    (x + w.fdiv 2 - new_w.fdiv 2, y + h.fdiv 2 - new_h.fdiv 2)
  else if anchor = "topleft" then (x, y)
  else if anchor = "topright" then (x + w - new_w, y)
  else if anchor = "bottomleft" then (x, y + h - new_h)
  else if anchor = "bottomright" then (x + w - new_w, y + h - new_h)
  else (x, y)

/-- `constrain_rect_to_ratio` from `utils/aspect_ratio.py` (lines 153-257):
constrained size via `constrainSize`, then anchor-based repositioning,
clamping into the bounds, and rounding the position down to even. -/
def constrain_rect_to_ratio (x y w h ratio_w ratio_h max_w max_h : ℤ)
    (anchor : String) : ℤ × ℤ × ℤ × ℤ :=
  let nwh := constrainSize w h ratio_w ratio_h max_w max_h
  let new_w := nwh.1
  let new_h := nwh.2
  let nxy := anchorPos anchor x y w h new_w new_h
  let new_x := max 0 (min nxy.1 (max_w - new_w))
  let new_y := max 0 (min nxy.2 (max_h - new_h))
  (pyEven new_x, pyEven new_y, new_w, new_h)

/-! ## core/progress_parser.py -/

/-- Python regex `\s` (ASCII range, as FFmpeg output is ASCII). -/
def pyIsSpace (c : Char) : Bool :=
  c = ' ' || c = '\t' || c = '\n' || c = '\x0d' || c = '\x0b' || c = '\x0c'

/-- Matching `\s*(\d+)` at the head of `cs` (the text right after a
`frame=` literal): skip whitespace greedily, then require at least one
digit and take the maximal digit run, as the regex engine does. -/
def matchFrameTail (cs : List Char) : Option ℕ :=
  let afterSpace := cs.dropWhile pyIsSpace
  let ds := afterSpace.takeWhile Char.isDigit
  if ds.isEmpty then none else some (digitsToNat ds)

/-- `re.search` of the compiled pattern `frame=\s*(\d+)` (the
`frame_pattern` of `ProgressParser.__init__`, `core/progress_parser.py`
line 22): leftmost position where the whole pattern matches. -/
def findFrame : List Char → Option ℕ
  | [] => none
  | c :: rest =>
    if ("frame=".data).isPrefixOf (c :: rest) then
      match matchFrameTail ((c :: rest).drop 6) with
      | some n => some n
      | none => findFrame rest
    else findFrame rest

/-- `ProgressInfo` from `core/models.py` (lines 128-141). The float-valued
fields `fps` and `elapsed_seconds` (filled from the `fps=`/`time=` regexes)
are not referenced by any claim and are not modelled. -/
structure ProgressInfo where
  current_frame : Option ℕ := none
  total_frames : Option ℕ := none
  percentage : Option ℕ := none
deriving Repr, DecidableEq

/-- Python truthiness of an optional int: not `None` and not `0`. -/
def optTruthy (o : Option ℕ) : Bool := o.getD 0 ≠ 0

/-- `ProgressParser.parse_output` from `core/progress_parser.py`
(lines 36-69), restricted to the fields the claims mention: extract the
current frame number via `frame_pattern`; when `self.total_frames and
info.current_frame` is truthy, set `percentage = min(int((frame / total) *
100), 100)` and copy the total. The float expression `(frame / total) *
100` truncated by `int` is idealised as exact: `frame * 100 / total` in
`ℕ`. -/
def parse_output (total_frames : Option ℕ) (text : String) : ProgressInfo :=
  let cf := findFrame text.data
  if optTruthy total_frames ∧ optTruthy cf then
    { current_frame := cf
      total_frames := total_frames
      percentage := some (min (cf.getD 0 * 100 / total_frames.getD 0) 100) }
  else
    { current_frame := cf }

/-! ## core/encoder.py -/

/-- The observable outcome of `FFmpegEncoder.wait_for_completion`: its
return value plus the traces of callback invocations. -/
structure CompletionResult where
  result : Bool
  progress_events : List ℕ
  output_events : List String
  finished_events : List (Bool × String)
deriving Repr, DecidableEq

/-- `FFmpegEncoder.wait_for_completion` from `core/encoder.py`
(lines 89-131), for a started process, modelled on the data the subprocess
supplies: its merged output `lines` and its exit code. Per line, the
progress callback fires only when a percentage was computed and the output
callback always fires; after the stream ends, exit code `0` maps to
`(True, "Encoding completed successfully!")` and any other code to
`(False, "Encoding failed with code N")`, delivered to `on_finished` once
when that callback is registered (`has_on_finished`). The progress and
output callbacks are modelled as always registered; the `except` fallback
(unreachable for total parsing) is not modelled. -/
def wait_for_completion (total_frames : Option ℕ) (lines : List String)
    (exit_code : ℤ) (has_on_finished : Bool) : CompletionResult :=
  let success := exit_code = 0
  { result := success
    progress_events := lines.filterMap fun l => (parse_output total_frames l).percentage
    output_events := lines
    finished_events :=
      if has_on_finished then
        if success then [(true, "Encoding completed successfully!")]
        else [(false, "Encoding failed with code " ++ toString exit_code)]
      else [] }

/-! ## core/command_builder.py -/

/-- The `output_resolution` field of `EncodingConfig`. In the source it is
a string drawn from the fixed UI list in `utils/constants.py`
(`"original"`, the six `"WxH"` presets, `"custom"`); the `"WxH"` presets
are modelled structurally as their two components so that the builder's
`resolution.split('x')` unpacking is total (spec section 7: configuration
errors are validated before the pipeline runs). -/
inductive OutputResolution where
  | original : OutputResolution
  | preset (w h : ℕ) : OutputResolution
  | custom : OutputResolution
deriving Repr, DecidableEq

/-- `EncodingConfig` from `core/models.py` (lines 36-107), restricted to
the fields the modelled core reads. Paths are path strings (POSIX `/`
joining). `custom_resolution` is the validated `WIDTHxHEIGHT` pair,
`custom_args` the token list Python obtains via `shlex.split`, and
`rotate_angle` the exact value of the spinbox float (a multiple of 1/10).
The GUI-only aspect-ratio lock fields (`aspect_ratio_locked`, `_mode`,
`_preset`, `_custom_w`, `_custom_h`), which the builder never reads, are
omitted. -/
structure EncodingConfig where
  input_folder : String
  output_folder : String
  output_filename : String := "timelapse.mp4"
  sequence_info : Option SequenceInfo := none
  framerate : ℕ := 25
  codec : String := "libx264"
  crf : ℤ := 18
  preset : String := "medium"
  output_resolution : OutputResolution := .original
  custom_resolution : Option (ℕ × ℕ) := none
  profile : String := "high"
  level : String := "4.0"
  pixel_format : String := "yuv420p"
  movflags_faststart : Bool := true
  start_number : Option ℤ := none
  pattern_type : String := "sequential"
  custom_args : List String := []
  deflicker_enabled : Bool := false
  deflicker_mode : String := "pm"
  deflicker_size : ℤ := 10
  crop_enabled : Bool := false
  crop_x : ℤ := 0
  crop_y : ℤ := 0
  crop_w : ℤ := 0
  crop_h : ℤ := 0
  rotate_enabled : Bool := false
  rotate_angle : ℚ := 0
  flip_enabled : Bool := false
  flip_horizontal : Bool := false
  flip_vertical : Bool := false
deriving Repr, DecidableEq

/-- The `output_path` property of `EncodingConfig`. -/
def EncodingConfig.output_path (c : EncodingConfig) : String :=
  c.output_folder ++ "/" ++ c.output_filename

/-- The `needs_padding` property of `EncodingConfig`. -/
def EncodingConfig.needsPadding (c : EncodingConfig) : Bool :=
  match c.sequence_info with
  | some si => si.needs_padding
  | none => false

/-- The `use_concat` property of `EncodingConfig`. -/
def EncodingConfig.useConcat (c : EncodingConfig) : Bool :=
  match c.sequence_info with
  | some si => si.use_concat
  | none => false

/-- Decimal rendering of the fractional part of `|q| - ⌊|q|⌋` (one digit
per step, up to 17 significant places as Python's `repr` emits at most). -/
def fracDigits : ℕ → ℚ → List Char
  | 0, _ => []
  | fuel + 1, q =>
    if q = 0 then []
    else
      let d := ⌊q * 10⌋
      Char.ofNat ('0'.toNat + d.toNat) :: fracDigits fuel (q * 10 - d)

/-- Python `str(float)` for the exact decimal values the rotate-angle
spinbox produces (idealised as the exact decimal expansion; always shows
at least one fractional digit, as `str(45.0) = "45.0"`). -/
def pyFloatStr (q : ℚ) : String :=
  let sign := if q < 0 then "-" else ""
  let a := |q|
  let ip := ⌊a⌋
  let ds := fracDigits 17 (a - ip)
  sign ++ toString ip ++ "." ++ (if ds.isEmpty then "0" else String.mk ds)

/-- `FFmpegCommandBuilder._build_rotate_filter` from
`core/command_builder.py` (lines 208-231): empty for angle `0`, transpose
forms for exactly 90/180/270, otherwise the generic `rotate` filter filled
with black. The f-string interpolation of the float angle is `pyFloatStr`. -/
def buildRotateFilter (angle : ℚ) : String :=
  if angle = 0 then ""
  else if angle = 90 then "transpose=1"
  else if angle = 180 then "transpose=2,transpose=2"
  else if angle = 270 then "transpose=2"
  else "rotate=" ++ pyFloatStr angle ++ "*PI/180:c=black:ow='iw':oh='ih'"

/-- `FFmpegCommandBuilder._build_scale_filter` (lines 175-197): empty for
`original` (and for `custom` without a custom resolution), else
`scale=W:H`. -/
def buildScaleFilter (c : EncodingConfig) : String :=
  match c.output_resolution with
  | .original => ""
  | .custom =>
    match c.custom_resolution with
    | some (w, h) => "scale=" ++ toString w ++ ":" ++ toString h
    | none => ""
  | .preset w h => "scale=" ++ toString w ++ ":" ++ toString h

/-- `FFmpegCommandBuilder._build_crop_filter` (lines 199-206). -/
def buildCropFilter (c : EncodingConfig) : String :=
  "crop=" ++ toString c.crop_w ++ ":" ++ toString c.crop_h ++ ":" ++
    toString c.crop_x ++ ":" ++ toString c.crop_y

/-- `FFmpegCommandBuilder._build_flip_filters` (lines 233-248). -/
def buildFlipFilters (c : EncodingConfig) : List String :=
  (if c.flip_horizontal then ["hflip"] else []) ++
    (if c.flip_vertical then ["vflip"] else [])

/-- `FFmpegCommandBuilder._build_deflicker_filter` (lines 250-260). -/
def buildDeflickerFilter (c : EncodingConfig) : String :=
  "deflicker=mode=" ++ c.deflicker_mode ++ ":size=" ++ toString c.deflicker_size

/-- The filter list assembled by `FFmpegCommandBuilder._add_filter_options`
(`core/command_builder.py`, lines 128-169), in the source's append order:
`fps` (concat mode) → `pad` (odd dimensions) → scale → rotate → flip →
crop → deflicker → `format` last. Each optional filter is appended only
when its builder returned a non-empty string, exactly as the `if filters:`
truthiness checks do. -/
def filterList (c : EncodingConfig) : List String :=
  (if c.useConcat then ["fps=" ++ toString c.framerate] else []) ++
  (if c.needsPadding then ["pad=ceil(iw/2)*2:ceil(ih/2)*2"] else []) ++
  (let s := buildScaleFilter c; if s ≠ "" then [s] else []) ++
  (if c.rotate_enabled then
    (let r := buildRotateFilter c.rotate_angle; if r ≠ "" then [r] else [])
   else []) ++
  (if c.flip_enabled then buildFlipFilters c else []) ++
  (if c.crop_enabled then
    (let cr := buildCropFilter c; if cr ≠ "" then [cr] else [])
   else []) ++
  (if c.deflicker_enabled then
    (let d := buildDeflickerFilter c; if d ≠ "" then [d] else [])
   else []) ++
  ["format=" ++ c.pixel_format]

/-- Python `",".join(filters)`. -/
def joinComma : List String → String
  | [] => ""
  | [s] => s
  | s :: y :: ys => s ++ "," ++ joinComma (y :: ys)

/-- The `-vf` argument pair emitted by `_add_filter_options` (lines
171-173); the list is never empty (`format=` is unconditional) but the
source's `if filters:` check is kept. -/
def filterOpts (c : EncodingConfig) : List String :=
  if filterList c ≠ [] then ["-vf", joinComma (filterList c)] else []

/-- `FFmpegCommandBuilder._build_input_pattern` (lines 109-126). -/
def buildInputPattern (c : EncodingConfig) : String :=
  if c.pattern_type = "glob" then "glob:" ++ c.input_folder ++ "/*.jpg"
  else
    match c.sequence_info with
    | some si => c.input_folder ++ "/" ++ si.pattern
    | none => c.input_folder ++ "/" ++ "img_%04d.jpg"

/-- `FFmpegCommandBuilder._add_input_options` (lines 84-107): concat mode
emits `-f concat -safe 0 -i <manifest>` only when a manifest path is set;
sequential mode emits `-framerate` (and optionally `-start_number`) before
`-i <pattern>`. -/
def inputOpts (c : EncodingConfig) : List String :=
  if c.useConcat then
    match c.sequence_info >>= SequenceInfo.concat_file with
    | some f => ["-f", "concat", "-safe", "0", "-i", f]
    | none => []
  else
    ["-framerate", toString c.framerate] ++
    (match c.start_number with
     | some n => ["-start_number", toString n]
     | none => []) ++
    ["-i", buildInputPattern c]

/-- The H.264-to-H.265 profile table of
`FFmpegCommandBuilder._map_profile_to_h265` (lines 281-299). -/
def h265ProfileMap : List (String × String) :=
  [("baseline", "main"), ("main", "main"), ("high", "main"),
   ("high10", "main10"), ("high422", "main422-10"), ("high444", "main444-8")]

/-- `_map_profile_to_h265`: dictionary lookup with default `"main"`. -/
def mapProfileToH265 (p : String) : String :=
  (h265ProfileMap.lookup p).getD "main"

/-- The named-preset-to-SVT-AV1-number table of
`FFmpegCommandBuilder._map_preset_to_av1` (lines 262-279). -/
def av1PresetMap : List (String × ℕ) :=
  [("ultrafast", 13), ("superfast", 12), ("veryfast", 10), ("faster", 8),
   ("fast", 6), ("medium", 5), ("slow", 4), ("slower", 2), ("veryslow", 0)]

/-- `_map_preset_to_av1`: dictionary lookup with default `5` (medium). -/
def mapPresetToAv1 (p : String) : ℕ :=
  (av1PresetMap.lookup p).getD 5

/-- `FFmpegCommandBuilder._add_codec_options` (lines 301-324). -/
def codecOpts (c : EncodingConfig) : List String :=
  ["-c:v", c.codec] ++
  (if c.codec = "libx264" ∨ c.codec = "libx265" then
    ["-preset", c.preset] ++
    (if c.codec = "libx265" then
      (let p := mapProfileToH265 c.profile
       if p ≠ "" then ["-profile:v", p] else []) ++ ["-tag:v", "hvc1"]
     else ["-profile:v", c.profile] ++ ["-level", c.level])
   else if c.codec = "libsvtav1" then
    ["-preset", toString (mapPresetToAv1 c.preset)]
   else [])

/-- `FFmpegCommandBuilder._add_quality_options` (lines 326-328). -/
def qualityOpts (c : EncodingConfig) : List String :=
  ["-crf", toString c.crf]

/-- `FFmpegCommandBuilder._add_output_options` (lines 330-340):
`-movflags +faststart` when enabled, then the user's custom argument
tokens. -/
def outputOpts (c : EncodingConfig) : List String :=
  (if c.movflags_faststart then ["-movflags", "+faststart"] else []) ++
  (if c.custom_args ≠ [] then c.custom_args else [])

/-- The full command assembled by `FFmpegCommandBuilder.build`
(lines 52-72): executable, unconditional `-y` overwrite flag, then the
input, filter, codec, quality and output stages in that order, ending with
the output file path (`_add_output_file`, lines 342-344). -/
def buildCommand (ffmpeg_path : String) (c : EncodingConfig) : List String :=
  ffmpeg_path :: "-y" ::
    (inputOpts c ++ filterOpts c ++ codecOpts c ++ qualityOpts c ++
      outputOpts c ++ [c.output_path])

/-- `FFmpegCommandBuilder` (`core/command_builder.py`, lines 37-50): the
builder object with its mutable `command_parts` buffer. -/
structure FFmpegCommandBuilder where
  config : EncodingConfig
  ffmpeg_path : String
  command_parts : List String
deriving Repr

/-- `FFmpegCommandBuilder.build` as the method on the builder state: it
discards whatever `command_parts` held (the method starts by reassigning
`self.command_parts = [self.ffmpeg_path]`), fills the buffer stage by
stage, and returns it. -/
def FFmpegCommandBuilder.build (b : FFmpegCommandBuilder) :
    List String × FFmpegCommandBuilder :=
  let parts := buildCommand b.ffmpeg_path b.config
  (parts, { b with command_parts := parts })

/-! ## `generate_concat_file` (core/sequence_detector.py) -/

/-- The path-escaping of `generate_concat_file`
(`core/sequence_detector.py` line 209): backslashes become forward
slashes, then each single quote becomes `'\''`. -/
def escapeConcatPath (s : String) : String :=
  let slashed := s.data.map fun c => if c = '\\' then '/' else c
  String.mk (slashed.map fun c => if c = '\'' then "'\\''".data else [c]).flatten

/-- One manifest line (line 210): `file '<escaped path>'` plus newline. -/
def concatFileLine (p : String) : String :=
  "file '" ++ escapeConcatPath p ++ "'\n"

/-- `generate_concat_file` from `core/sequence_detector.py`
(lines 191-212), modelled as the text written to `filelist.txt`: the
`sorted(image_files)` loop appending one line per (already absolute) image
path. `Path.resolve()` is the caller's concern and paths are taken as the
absolute path strings; `sorted` on same-directory `Path` objects is the
string sort. -/
def generate_concat_file (image_files : List String) : String :=
  ((image_files.mergeSort (· ≤ ·)).foldl (fun acc f => acc ++ concatFileLine f) "")

/-! ## Claim C1: gap detection -/

theorem foldl_min_mem (n : ℕ) (l : List ℕ) : l.foldl Nat.min n ∈ n :: l := by
  induction l generalizing n with
  | nil => simp
  | cons a l ih =>
    have h := ih (Nat.min n a)
    rcases List.mem_cons.1 h with h | h
    · rw [List.foldl_cons, h]
      rcases Nat.le_total n a with hna | han
      · simp [Nat.min_eq_left hna]
      · simp [Nat.min_eq_right han]
    · exact List.mem_cons_of_mem _ (List.mem_cons_of_mem _ h)

theorem foldl_min_le (n : ℕ) (l : List ℕ) :
    ∀ x ∈ n :: l, l.foldl Nat.min n ≤ x := by
  induction l generalizing n with
  | nil => intro x hx; simp at hx; subst hx; simp
  | cons a l ih =>
    intro x hx
    have hmin1 : Nat.min n a ≤ n := Nat.min_le_left _ _
    have hmin2 : Nat.min n a ≤ a := Nat.min_le_right _ _
    have hhead := ih (Nat.min n a) _ (List.mem_cons_self _ _)
    rcases List.mem_cons.1 hx with rfl | hx
    · exact le_trans hhead hmin1
    · rcases List.mem_cons.1 hx with rfl | hx
      · exact le_trans hhead hmin2
      · exact ih _ _ (List.mem_cons_of_mem _ hx)

theorem foldl_max_mem (n : ℕ) (l : List ℕ) : l.foldl Nat.max n ∈ n :: l := by
  induction l generalizing n with
  | nil => simp
  | cons a l ih =>
    have h := ih (Nat.max n a)
    rcases List.mem_cons.1 h with h | h
    · rw [List.foldl_cons, h]
      rcases Nat.le_total n a with hna | han
      · simp [Nat.max_eq_right hna]
      · simp [Nat.max_eq_left han]
    · exact List.mem_cons_of_mem _ (List.mem_cons_of_mem _ h)

theorem le_foldl_max (n : ℕ) (l : List ℕ) :
    ∀ x ∈ n :: l, x ≤ l.foldl Nat.max n := by
  induction l generalizing n with
  | nil => intro x hx; simp at hx; subst hx; simp
  | cons a l ih =>
    intro x hx
    have hmax1 : n ≤ Nat.max n a := Nat.le_max_left _ _
    have hmax2 : a ≤ Nat.max n a := Nat.le_max_right _ _
    have hhead := ih (Nat.max n a) _ (List.mem_cons_self _ _)
    rcases List.mem_cons.1 hx with rfl | hx
    · exact le_trans hmax1 hhead
    · rcases List.mem_cons.1 hx with rfl | hx
      · exact le_trans hmax2 hhead
      · exact ih _ _ (List.mem_cons_of_mem _ hx)

/-- Claim C1: for every non-empty list of frame numbers extracted from a
detected sequence, `detect_gaps` returns exactly the ascending enumeration
of `{min..max}` minus the actual numbers (characterised without reference
to min/max: the numbers bounded below and above by elements of the list
and absent from it), `has_gaps` is true iff that difference is non-empty,
and the `SequenceInfo` built by `detect_sequence` has `gaps`/`has_gaps`
from `detect_gaps` and `use_concat = has_gaps`. -/
theorem C1_gap_detection (numbers : List ℕ) (hne : numbers ≠ [])
    (pre : String) (padding : ℕ) (ext : String) (count width height : ℕ)
    (fmt : String) :
    (∀ m : ℕ, m ∈ (detect_gaps numbers).2 ↔
      ((∃ a ∈ numbers, a ≤ m) ∧ (∃ b ∈ numbers, m ≤ b) ∧ m ∉ numbers)) ∧
    List.Sorted (· < ·) (detect_gaps numbers).2 ∧
    ((detect_gaps numbers).1 = true ↔ (detect_gaps numbers).2 ≠ []) ∧
    (mkSequenceInfo pre padding ext numbers count width height fmt).gaps =
      (detect_gaps numbers).2 ∧
    (mkSequenceInfo pre padding ext numbers count width height fmt).has_gaps =
      (detect_gaps numbers).1 ∧
    (mkSequenceInfo pre padding ext numbers count width height fmt).use_concat =
      (mkSequenceInfo pre padding ext numbers count width height fmt).has_gaps := by
  obtain ⟨n, rest, rfl⟩ := List.exists_cons_of_ne_nil hne
  have hlo_mem := foldl_min_mem n rest
  have hlo_le := foldl_min_le n rest
  have hhi_mem := foldl_max_mem n rest
  have hhi_ge := le_foldl_max n rest
  refine ⟨?_, ?_, ?_, ?_, ?_, ?_⟩
  · intro m
    constructor
    · intro hm
      simp only [detect_gaps, List.mem_filter, List.mem_range'_1] at hm
      obtain ⟨⟨hlo, hhi⟩, hp⟩ := hm
      have hnm : m ∉ n :: rest := by
        simp only [List.contains, List.elem_eq_mem, decide_eq_true_eq,
          decide_eq_false_iff_not] at hp
        simpa using hp
      have hn_le_hi := hhi_ge n (List.mem_cons_self _ _)
      exact ⟨⟨_, hlo_mem, hlo⟩, ⟨_, hhi_mem, by omega⟩, hnm⟩
    · rintro ⟨⟨a, ha, ham⟩, ⟨b, hb, hmb⟩, hnm⟩
      have h1 := hlo_le a ha
      have h2 := hhi_ge b hb
      simp only [detect_gaps, List.mem_filter, List.mem_range'_1]
      refine ⟨⟨by omega, by omega⟩, ?_⟩
      simp only [List.contains, List.elem_eq_mem, decide_eq_true_eq,
        decide_eq_false_iff_not]
      simpa using hnm
  · simp only [detect_gaps]
    exact List.Sorted.filter _ (List.pairwise_lt_range' _ _)
  · simp [detect_gaps, List.length_pos]
  · simp [mkSequenceInfo]
  · simp [mkSequenceInfo]
  · simp [mkSequenceInfo]

theorem C1_gap_detection_witness :
    detect_gaps [3, 1, 6] = (true, [2, 4, 5]) ∧
    (([3, 1, 6] : List ℕ) ≠ []) ∧
    ((mkSequenceInfo "IMG_" 4 ".jpg" [3, 1, 6] 3 640 480 "JPEG").use_concat =
      (mkSequenceInfo "IMG_" 4 ".jpg" [3, 1, 6] 3 640 480 "JPEG").has_gaps) :=
  ⟨by decide, by decide,
    (C1_gap_detection [3, 1, 6] (by decide) "IMG_" 4 ".jpg" 3 640 480
      "JPEG").2.2.2.2.2⟩

/-! ## Claim C8: ratio parsing -/

theorem minimalDecimals_le (v d : ℕ) : minimalDecimals v d ≤ d := by
  induction d generalizing v with
  | zero => simp [minimalDecimals]
  | succ d ih =>
    rw [minimalDecimals]
    by_cases h : v % 10 = 0
    · simp only [h, if_pos rfl]
      exact le_trans (ih _) (Nat.le_succ d)
    · simp [h]

theorem pow_dvd_of_minimalDecimals (v d : ℕ) :
    10 ^ (d - minimalDecimals v d) ∣ v := by
  induction d generalizing v with
  | zero => simp [minimalDecimals]
  | succ d ih =>
    rw [minimalDecimals]
    by_cases h : v % 10 = 0
    · simp only [h, if_pos rfl, if_true]
      have h10 : 10 ∣ v := Nat.dvd_of_mod_eq_zero h
      have hle := minimalDecimals_le (v / 10) d
      have hsub : d + 1 - minimalDecimals (v / 10) d =
          (d - minimalDecimals (v / 10) d) + 1 := by omega
      rw [hsub, pow_succ]
      have := ih (v / 10)
      obtain ⟨q, hq⟩ := this
      refine ⟨q, ?_⟩
      have hv : v = v / 10 * 10 := (Nat.div_mul_cancel h10).symm
      conv_lhs => rw [hv, hq]
      ring
    · simp [h]

theorem dvd_pow_mul_of_minimal_le (v e m : ℕ) (hm : minimalDecimals v e ≤ m) :
    10 ^ e ∣ v * 10 ^ m := by
  have hle := minimalDecimals_le v e
  obtain ⟨q, hq⟩ := pow_dvd_of_minimalDecimals v e
  refine ⟨q * 10 ^ (m - minimalDecimals v e), ?_⟩
  calc v * 10 ^ m
      = 10 ^ (e - minimalDecimals v e) * q * 10 ^ m := by rw [← hq]
    _ = 10 ^ (e - minimalDecimals v e) * 10 ^ m * q := by ring
    _ = 10 ^ (e - minimalDecimals v e + m) * q := by rw [← pow_add]
    _ = 10 ^ (e + (m - minimalDecimals v e)) * q := by
        have hexp : e - minimalDecimals v e + m = e + (m - minimalDecimals v e) := by
          omega
        rw [hexp]
    _ = 10 ^ e * (q * 10 ^ (m - minimalDecimals v e)) := by rw [pow_add]; ring

theorem simplify_ratio_mul (a b c : ℕ) (hc : c ≠ 0) :
    simplify_ratio (a * c) (b * c) = simplify_ratio a b := by
  unfold simplify_ratio
  by_cases hz : a = 0 ∨ b = 0
  · rcases hz with rfl | rfl <;> simp
  · push_neg at hz
    have haz : ¬ (a * c = 0 ∨ b * c = 0) := by
      push_neg
      exact ⟨mul_ne_zero hz.1 hc, mul_ne_zero hz.2 hc⟩
    rw [if_neg haz, if_neg (by push_neg; exact hz)]
    simp only [pyGcd_eq_gcd]
    rw [Nat.gcd_mul_right]
    have hg : 0 < Nat.gcd b a := Nat.gcd_pos_of_pos_right _ (Nat.pos_of_ne_zero hz.1)
    have hcpos : 0 < c := Nat.pos_of_ne_zero hc
    rw [Nat.mul_div_mul_right _ _ hcpos]
    rw [Nat.mul_div_mul_right _ _ hcpos]

theorem scaled_div_eq (v e m D : ℕ) (hmD : m ≤ D) (hdvd : 10 ^ e ∣ v * 10 ^ m) :
    v * 10 ^ D / 10 ^ e = v * 10 ^ m / 10 ^ e * 10 ^ (D - m) := by
  obtain ⟨q, hq⟩ := hdvd
  have hsplit : v * 10 ^ D = v * 10 ^ m * 10 ^ (D - m) := by
    rw [mul_assoc, ← pow_add]
    congr 2
    omega
  have hpe : (0 : ℕ) < 10 ^ e := Nat.pos_pow_of_pos _ (by omega)
  rw [hsplit, hq, Nat.mul_div_cancel_left _ hpe, mul_assoc,
    Nat.mul_div_cancel_left _ hpe]

/-- Claim C8: `parse_ratio_string` accepts `"W:H"` with decimal components,
scales by the maximum decimal-place count of either side and simplifies by
the gcd (conjunct 4, stated with the claim's scaling `10 ^ max wd hd` and
proved equal to the code's trailing-zero-minimised scaling);
`parse_ratio_string "2.39:1" = simplify(239,100)`;
`simplify(1920,1080) = (16,9)`; and every malformed input (no colon, not
exactly two parts, or a non-numeric part) produces a parse error. -/
theorem C8_parse_ratio :
    parse_ratio_string "2.39:1" = .ok (simplify_ratio 239 100) ∧
    simplify_ratio 1920 1080 = (16, 9) ∧
    (∀ s : String,
      (¬ s.data.contains ':' = true ∨
        (splitCharList ':' s.data).length ≠ 2 ∨
        (∃ p ∈ splitCharList ':' s.data, parseDecimal p = none)) →
      parse_ratio_string s = .error ("Invalid ratio format: " ++ s)) ∧
    (∀ (s : String) (wP hP : List Char) (wv wd hv hd : ℕ),
      s.data.contains ':' = true →
      splitCharList ':' s.data = [wP, hP] →
      parseDecimal wP = some (wv, wd) →
      parseDecimal hP = some (hv, hd) →
      parse_ratio_string s =
        .ok (simplify_ratio (wv * 10 ^ max wd hd / 10 ^ wd)
          (hv * 10 ^ max wd hd / 10 ^ hd))) := by
  have key : ∀ (s : String) (wP hP : List Char) (wv wd hv hd : ℕ),
      s.data.contains ':' = true →
      splitCharList ':' s.data = [wP, hP] →
      parseDecimal wP = some (wv, wd) →
      parseDecimal hP = some (hv, hd) →
      parse_ratio_string s =
        .ok (simplify_ratio (wv * 10 ^ max wd hd / 10 ^ wd)
          (hv * 10 ^ max wd hd / 10 ^ hd)) := by
    intro s wP hP wv wd hv hd hc hsp hw hh
    rw [parse_ratio_string, if_neg (not_not_intro hc)]
    simp only [hsp, hw, hh]
    set m := max (minimalDecimals wv wd) (minimalDecimals hv hd) with hm
    have hmD : m ≤ max wd hd := by
      apply max_le
      · exact le_trans (minimalDecimals_le _ _) (le_max_left _ _)
      · exact le_trans (minimalDecimals_le _ _) (le_max_right _ _)
    have hwdvd : 10 ^ wd ∣ wv * 10 ^ m :=
      dvd_pow_mul_of_minimal_le _ _ _ (le_max_left _ _)
    have hhdvd : 10 ^ hd ∣ hv * 10 ^ m :=
      dvd_pow_mul_of_minimal_le _ _ _ (le_max_right _ _)
    split_ifs with hfrac
    · rw [scaled_div_eq wv wd m (max wd hd) hmD hwdvd,
        scaled_div_eq hv hd m (max wd hd) hmD hhdvd,
        simplify_ratio_mul _ _ _ (by positivity)]
    · push_neg at hfrac
      obtain ⟨hw0, hh0⟩ := hfrac
      have hw1 : 10 ^ wd ∣ wv * 10 ^ 0 := by simpa using hw0
      have hh1 : 10 ^ hd ∣ hv * 10 ^ 0 := by simpa using hh0
      rw [scaled_div_eq wv wd 0 (max wd hd) (Nat.zero_le _) hw1,
        scaled_div_eq hv hd 0 (max wd hd) (Nat.zero_le _) hh1,
        simplify_ratio_mul _ _ _ (by positivity)]
      simp
  refine ⟨?_, ?_, ?_, key⟩
  · have h := key "2.39:1" "2.39".data "1".data 239 2 1 0 (by decide)
      (by decide) (by decide) (by decide)
    rw [h]
    norm_num
  · rw [simplify_ratio]
    norm_num [pyGcd_eq_gcd]
  · intro s hmal
    by_cases hc : s.data.contains ':' = true
    · rcases hmal with hmal | hmal | hmal
      · exact absurd hc hmal
      · rw [parse_ratio_string, if_neg (not_not_intro hc)]
        rcases hsp : splitCharList ':' s.data with _ | ⟨a, _ | ⟨b, _ | ⟨c, t⟩⟩⟩
        · simp only [hsp]
        · simp only [hsp]
        · rw [hsp] at hmal
          simp at hmal
        · simp only [hsp]
      · obtain ⟨p, hp, hpd⟩ := hmal
        rw [parse_ratio_string, if_neg (not_not_intro hc)]
        rcases hsp : splitCharList ':' s.data with _ | ⟨a, _ | ⟨b, _ | ⟨c, t⟩⟩⟩
        · simp only [hsp]
        · simp only [hsp]
        · rw [hsp] at hp
          rcases List.mem_cons.1 hp with rfl | hp
          · simp only [hsp, hpd]
          · rcases List.mem_cons.1 hp with rfl | hp
            · rcases hpa : parseDecimal a with _ | ⟨⟨pv, pd⟩⟩
              · simp only [hsp, hpa]
              · simp only [hsp, hpa, hpd]
            · simp at hp
        · simp only [hsp]
    · rw [parse_ratio_string, if_pos hc]

theorem C8_parse_ratio_witness :
    ("16:9".data.contains ':' = true) ∧
    parse_ratio_string "16:9" =
      .ok (simplify_ratio (16 * 10 ^ max 0 0 / 10 ^ 0)
        (9 * 10 ^ max 0 0 / 10 ^ 0)) :=
  ⟨by decide,
    C8_parse_ratio.2.2.2 "16:9" "16".data "9".data 16 0 9 0 (by decide)
      (by decide) (by decide) (by decide)⟩

/-! ## Claim C7: constrained-rectangle invariant -/

theorem pyEven_le (t : ℤ) : pyEven t ≤ t := by
  rw [pyEven, Int.fdiv_eq_ediv _ (by norm_num)]
  omega

theorem pyEven_even (t : ℤ) : pyEven t % 2 = 0 := by
  rw [pyEven, Int.fdiv_eq_ediv _ (by norm_num)]
  omega

theorem pyEven_nonneg (t : ℤ) (h : 0 ≤ t) : 0 ≤ pyEven t := by
  rw [pyEven, Int.fdiv_eq_ediv _ (by norm_num)]
  omega

theorem max32_pyEven_even (t : ℤ) : max 32 (pyEven t) % 2 = 0 := by
  rcases max_choice 32 (pyEven t) with hm | hm <;> rw [hm]
  · norm_num
  · exact pyEven_even t

theorem pyRound_le (q : ℚ) : (pyRound q : ℚ) ≤ q + 1 / 2 := by
  have hfl := Int.floor_le q
  have hfl2 := Int.lt_floor_add_one q
  rw [pyRound]
  split_ifs with h1 h2 h3 <;> push_cast <;> linarith

theorem le_pyRound (q : ℚ) : q - 1 / 2 ≤ (pyRound q : ℚ) := by
  have hfl := Int.floor_le q
  have hfl2 := Int.lt_floor_add_one q
  rw [pyRound]
  split_ifs with h1 h2 h3 <;> push_cast <;> linarith

/-- If the width-derived height exceeds the height bound, the
height-derived width fits the width bound (bounds at least 32). This is
the inequality that makes the inner rescaling step of
`constrain_rect_to_ratio` respect the bounds. -/
theorem wfh_le_of_hfw_gt (rw' rh mw mh : ℤ) (hmw : 32 ≤ mw) (hmh : 32 ≤ mh)
    (hgt : mh < calculate_height_from_width mw rw' rh) :
    calculate_width_from_height mh rw' rh ≤ mw := by
  rw [calculate_height_from_width] at hgt
  by_cases hrw : rw' = 0
  · rw [if_pos hrw] at hgt; omega
  rw [if_neg hrw] at hgt
  rw [calculate_width_from_height]
  by_cases hrh : rh = 0
  · rw [if_pos hrh]; omega
  rw [if_neg hrh]
  set x : ℚ := ((mw * rh : ℤ) : ℚ) / ((rw' : ℤ) : ℚ) with hxdef
  set y : ℚ := ((mh * rw' : ℤ) : ℚ) / ((rh : ℤ) : ℚ) with hydef
  have h1 : mh < pyEven (pyRound x) := by
    rcases max_choice 32 (pyEven (pyRound x)) with hm | hm <;> rw [hm] at hgt <;> omega
  have h2 : mh + 1 ≤ pyRound x := by
    have := pyEven_le (pyRound x); omega
  have h3 : ((mh : ℚ)) + 1 ≤ ((pyRound x : ℤ) : ℚ) := by exact_mod_cast h2
  have h4 := pyRound_le x
  have hx : ((mh : ℚ)) + 1 / 2 ≤ x := by linarith
  have hrwQ : ((rw' : ℤ) : ℚ) ≠ 0 := Int.cast_ne_zero.2 hrw
  have hrhQ : ((rh : ℤ) : ℚ) ≠ 0 := Int.cast_ne_zero.2 hrh
  have hxy : x * y = ((mw : ℚ)) * ((mh : ℚ)) := by
    rw [hxdef, hydef]
    push_cast
    field_simp
    ring
  have hmwQ : (32 : ℚ) ≤ ((mw : ℚ)) := by exact_mod_cast hmw
  have hmhQ : (32 : ℚ) ≤ ((mh : ℚ)) := by exact_mod_cast hmh
  have hxpos : 0 < x := by linarith
  have hy_lt : y < ((mw : ℚ)) := by
    by_contra hcon
    push_neg at hcon
    have hprod : ((mh : ℚ) + 1 / 2) * ((mw : ℚ)) ≤ x * y :=
      mul_le_mul hx hcon (by linarith) (by linarith)
    nlinarith
  have h5 := pyRound_le y
  have h6 : ((pyRound y : ℤ) : ℚ) < ((mw : ℚ)) + 1 := by linarith
  have h7 : pyRound y ≤ mw := by
    have : pyRound y < mw + 1 := by exact_mod_cast h6
    omega
  have h8 := pyEven_le (pyRound y)
  rcases max_choice 32 (pyEven (pyRound y)) with hm | hm <;> rw [hm] <;> omega

/-- The mirror of `wfh_le_of_hfw_gt`. -/
theorem hfw_le_of_wfh_gt (rw' rh mw mh : ℤ) (hmw : 32 ≤ mw) (hmh : 32 ≤ mh)
    (hgt : mw < calculate_width_from_height mh rw' rh) :
    calculate_height_from_width mw rw' rh ≤ mh := by
  rw [calculate_width_from_height] at hgt
  by_cases hrh : rh = 0
  · rw [if_pos hrh] at hgt; omega
  rw [if_neg hrh] at hgt
  rw [calculate_height_from_width]
  by_cases hrw : rw' = 0
  · rw [if_pos hrw]; omega
  rw [if_neg hrw]
  set x : ℚ := ((mh * rw' : ℤ) : ℚ) / ((rh : ℤ) : ℚ) with hxdef
  set y : ℚ := ((mw * rh : ℤ) : ℚ) / ((rw' : ℤ) : ℚ) with hydef
  have h1 : mw < pyEven (pyRound x) := by
    rcases max_choice 32 (pyEven (pyRound x)) with hm | hm <;> rw [hm] at hgt <;> omega
  have h2 : mw + 1 ≤ pyRound x := by
    have := pyEven_le (pyRound x); omega
  have h3 : ((mw : ℚ)) + 1 ≤ ((pyRound x : ℤ) : ℚ) := by exact_mod_cast h2
  have h4 := pyRound_le x
  have hx : ((mw : ℚ)) + 1 / 2 ≤ x := by linarith
  have hrwQ : ((rw' : ℤ) : ℚ) ≠ 0 := Int.cast_ne_zero.2 hrw
  have hrhQ : ((rh : ℤ) : ℚ) ≠ 0 := Int.cast_ne_zero.2 hrh
  have hxy : x * y = ((mh : ℚ)) * ((mw : ℚ)) := by
    rw [hxdef, hydef]
    push_cast
    field_simp
    ring
  have hmwQ : (32 : ℚ) ≤ ((mw : ℚ)) := by exact_mod_cast hmw
  have hmhQ : (32 : ℚ) ≤ ((mh : ℚ)) := by exact_mod_cast hmh
  have hxpos : 0 < x := by linarith
  have hy_lt : y < ((mh : ℚ)) := by
    by_contra hcon
    push_neg at hcon
    have hprod : ((mw : ℚ) + 1 / 2) * ((mh : ℚ)) ≤ x * y :=
      mul_le_mul hx hcon (by linarith) (by linarith)
    nlinarith
  have h5 := pyRound_le y
  have h6 : ((pyRound y : ℤ) : ℚ) < ((mh : ℚ)) + 1 := by linarith
  have h7 : pyRound y ≤ mh := by
    have : pyRound y < mh + 1 := by exact_mod_cast h6
    omega
  have h8 := pyEven_le (pyRound y)
  rcases max_choice 32 (pyEven (pyRound y)) with hm | hm <;> rw [hm] <;> omega

/-- Under bounds of at least 32, the size chosen by `constrainSize` is the
even-rounded, 32-floored version of a base pair that respects the bounds. -/
theorem constrainSize_shape (w h rw' rh mw mh : ℤ) (hmw : 32 ≤ mw)
    (hmh : 32 ≤ mh) :
    ∃ bw bh, constrainSize w h rw' rh mw mh =
      (max 32 (pyEven bw), max 32 (pyEven bh)) ∧ bw ≤ mw ∧ bh ≤ mh := by
  by_cases h1 : calculate_height_from_width w rw' rh ≤ mh ∧ w ≤ mw
  · refine ⟨w, calculate_height_from_width w rw' rh, ?_, h1.2, h1.1⟩
    rw [constrainSize, if_pos h1]
  by_cases h2 : calculate_width_from_height h rw' rh ≤ mw ∧ h ≤ mh
  · refine ⟨calculate_width_from_height h rw' rh, h, ?_, h2.1, h2.2⟩
    rw [constrainSize, if_neg h1, if_pos h2]
  by_cases h3 : (if 0 < w then (mw : ℚ) / (w : ℚ) else 1) <
      (if 0 < h then (mh : ℚ) / (h : ℚ) else 1)
  · by_cases h4 : mh < calculate_height_from_width mw rw' rh
    · refine ⟨calculate_width_from_height mh rw' rh, mh, ?_,
        wfh_le_of_hfw_gt rw' rh mw mh hmw hmh h4, le_refl mh⟩
      rw [constrainSize, if_neg h1, if_neg h2, if_pos h3, if_pos h4]
    · refine ⟨mw, calculate_height_from_width mw rw' rh, ?_, le_refl mw,
        by omega⟩
      rw [constrainSize, if_neg h1, if_neg h2, if_pos h3, if_neg h4]
  · by_cases h5 : mw < calculate_width_from_height mh rw' rh
    · refine ⟨mw, calculate_height_from_width mw rw' rh, ?_, le_refl mw,
        hfw_le_of_wfh_gt rw' rh mw mh hmw hmh h5⟩
      rw [constrainSize, if_neg h1, if_neg h2, if_neg h3, if_pos h5]
    · refine ⟨calculate_width_from_height mh rw' rh, mh, ?_, by omega,
        le_refl mh⟩
      rw [constrainSize, if_neg h1, if_neg h2, if_neg h3, if_neg h5]

/-- The clamp-and-even step keeps the position non-negative, even, and
within the bound once the dimension fits. -/
theorem clamp_even_bounds (p bound dim : ℤ) (hdim : dim ≤ bound) :
    0 ≤ pyEven (max 0 (min p (bound - dim))) ∧
    pyEven (max 0 (min p (bound - dim))) % 2 = 0 ∧
    pyEven (max 0 (min p (bound - dim))) + dim ≤ bound := by
  have h0 : 0 ≤ max 0 (min p (bound - dim)) := le_max_left _ _
  have h1 : max 0 (min p (bound - dim)) ≤ bound - dim :=
    max_le (by omega) (min_le_right _ _)
  have h2 := pyEven_le (max 0 (min p (bound - dim)))
  have h3 := pyEven_nonneg _ h0
  have h4 := pyEven_even (max 0 (min p (bound - dim)))
  omega

/-- Claim C7 (amended: the bounds must be at least 32, see
`C7_constrain_invariant_cex`): for every input rectangle, ratio and anchor,
with bounds `max_w max_h ≥ 32`, the rectangle returned by
`constrain_rect_to_ratio` has even width/height at least 32, even
non-negative x/y, and fits the bounds: `x + w ≤ max_w`, `y + h ≤ max_h`. -/
theorem C7_constrain_invariant (x y w h rw' rh mw mh : ℤ) (anchor : String)
    (hmw : 32 ≤ mw) (hmh : 32 ≤ mh) :
    32 ≤ (constrain_rect_to_ratio x y w h rw' rh mw mh anchor).2.2.1 ∧
    (constrain_rect_to_ratio x y w h rw' rh mw mh anchor).2.2.1 % 2 = 0 ∧
    32 ≤ (constrain_rect_to_ratio x y w h rw' rh mw mh anchor).2.2.2 ∧
    (constrain_rect_to_ratio x y w h rw' rh mw mh anchor).2.2.2 % 2 = 0 ∧
    0 ≤ (constrain_rect_to_ratio x y w h rw' rh mw mh anchor).1 ∧
    (constrain_rect_to_ratio x y w h rw' rh mw mh anchor).1 % 2 = 0 ∧
    0 ≤ (constrain_rect_to_ratio x y w h rw' rh mw mh anchor).2.1 ∧
    (constrain_rect_to_ratio x y w h rw' rh mw mh anchor).2.1 % 2 = 0 ∧
    (constrain_rect_to_ratio x y w h rw' rh mw mh anchor).1 +
      (constrain_rect_to_ratio x y w h rw' rh mw mh anchor).2.2.1 ≤ mw ∧
    (constrain_rect_to_ratio x y w h rw' rh mw mh anchor).2.1 +
      (constrain_rect_to_ratio x y w h rw' rh mw mh anchor).2.2.2 ≤ mh := by
  obtain ⟨bw, bh, hcs, hbw, hbh⟩ := constrainSize_shape w h rw' rh mw mh hmw hmh
  have hwle : max 32 (pyEven bw) ≤ mw := max_le hmw (le_trans (pyEven_le bw) hbw)
  have hhle : max 32 (pyEven bh) ≤ mh := max_le hmh (le_trans (pyEven_le bh) hbh)
  simp only [constrain_rect_to_ratio, hcs]
  obtain ⟨hx0, hxe, hxb⟩ := clamp_even_bounds
    (anchorPos anchor x y w h (max 32 (pyEven bw)) (max 32 (pyEven bh))).1 mw
    (max 32 (pyEven bw)) hwle
  obtain ⟨hy0, hye, hyb⟩ := clamp_even_bounds
    (anchorPos anchor x y w h (max 32 (pyEven bw)) (max 32 (pyEven bh))).2 mh
    (max 32 (pyEven bh)) hhle
  refine ⟨le_max_left _ _, max32_pyEven_even bw, le_max_left _ _,
    max32_pyEven_even bh, hx0, hxe, hy0, hye, hxb, hyb⟩

/-- Claim C7 counterexample: with bounds smaller than the 32-pixel minimum
(`max_w = max_h = 20`), the returned rectangle is forced to 32×32 and
violates `x + width ≤ max_w`, refuting the claim as stated for arbitrary
bounds. -/
theorem C7_constrain_invariant_cex :
    constrain_rect_to_ratio 0 0 10 10 16 9 20 20 "center" = (0, 0, 32, 32) ∧
    ¬ ((constrain_rect_to_ratio 0 0 10 10 16 9 20 20 "center").1 +
        (constrain_rect_to_ratio 0 0 10 10 16 9 20 20 "center").2.2.1 ≤ 20) := by
  have hval : constrain_rect_to_ratio 0 0 10 10 16 9 20 20 "center" =
      (0, 0, 32, 32) := by
    norm_num [constrain_rect_to_ratio, constrainSize, anchorPos,
      calculate_height_from_width, calculate_width_from_height, pyRound,
      pyEven, Int.fdiv]
  refine ⟨hval, ?_⟩
  rw [hval]
  norm_num

theorem C7_constrain_invariant_witness :
    (32 : ℤ) ≤ 1920 ∧ (32 : ℤ) ≤ 1080 ∧
    (32 ≤ (constrain_rect_to_ratio 100 100 800 600 16 9 1920 1080 "center").2.2.1 ∧
      (constrain_rect_to_ratio 100 100 800 600 16 9 1920 1080 "center").2.2.1 % 2 = 0 ∧
      32 ≤ (constrain_rect_to_ratio 100 100 800 600 16 9 1920 1080 "center").2.2.2 ∧
      (constrain_rect_to_ratio 100 100 800 600 16 9 1920 1080 "center").2.2.2 % 2 = 0 ∧
      0 ≤ (constrain_rect_to_ratio 100 100 800 600 16 9 1920 1080 "center").1 ∧
      (constrain_rect_to_ratio 100 100 800 600 16 9 1920 1080 "center").1 % 2 = 0 ∧
      0 ≤ (constrain_rect_to_ratio 100 100 800 600 16 9 1920 1080 "center").2.1 ∧
      (constrain_rect_to_ratio 100 100 800 600 16 9 1920 1080 "center").2.1 % 2 = 0 ∧
      (constrain_rect_to_ratio 100 100 800 600 16 9 1920 1080 "center").1 +
        (constrain_rect_to_ratio 100 100 800 600 16 9 1920 1080 "center").2.2.1 ≤ 1920 ∧
      (constrain_rect_to_ratio 100 100 800 600 16 9 1920 1080 "center").2.1 +
        (constrain_rect_to_ratio 100 100 800 600 16 9 1920 1080 "center").2.2.2 ≤ 1080) :=
  ⟨by norm_num, by norm_num,
    C7_constrain_invariant 100 100 800 600 16 9 1920 1080 "center"
      (by norm_num) (by norm_num)⟩

/-! ## Claim C5: progress percentage -/

/-- Claim C5 (amended: both values must also be non-zero, matching Python's
truthiness test `if self.total_frames and info.current_frame`; see
`C5_percentage_cex`): for every parsed output line, the percentage is
`min(floor(frame * 100 / total), 100)` (and the total is copied) exactly
when the total frame count and the parsed frame number are both known and
non-zero, and stays unset when either is absent or zero. -/
theorem C5_percentage (total : Option ℕ) (text : String) :
    (parse_output total text).current_frame = findFrame text.data ∧
    (∀ t f : ℕ, total = some t → t ≠ 0 → findFrame text.data = some f →
      f ≠ 0 →
      (parse_output total text).percentage = some (min (f * 100 / t) 100) ∧
      (parse_output total text).total_frames = some t) ∧
    ((total = none ∨ total = some 0 ∨ findFrame text.data = none ∨
        findFrame text.data = some 0) →
      (parse_output total text).percentage = none) := by
  refine ⟨?_, ?_, ?_⟩
  · rw [parse_output]
    split_ifs <;> rfl
  · intro t f ht ht0 hf hf0
    rw [parse_output]
    rw [if_pos]
    · simp [ht, hf]
    · simp [optTruthy, ht, hf, ht0, hf0]
  · intro hcase
    rw [parse_output]
    rw [if_neg]
    rcases hcase with hc | hc | hc | hc <;> simp [optTruthy, hc]

/-- Claim C5 counterexample: on the FFmpeg startup line `frame=    0 ...`
with a known total of 10, both the total and the current frame number are
known, yet the source's truthiness test leaves the percentage unset
(the claim as stated requires `min(100, floor(0/10*100)) = 0`). -/
theorem C5_percentage_cex :
    (parse_output (some 10)
      "frame=    0 fps=0.0 q=0.0 size=       0kB").current_frame = some 0 ∧
    (parse_output (some 10)
      "frame=    0 fps=0.0 q=0.0 size=       0kB").percentage = none := by
  constructor <;> decide

theorem C5_percentage_witness :
    (parse_output (some 200) "frame=  100 fps= 25.0").percentage =
      some (min (100 * 100 / 200) 100) ∧
    (parse_output (some 200) "frame=  100 fps= 25.0").total_frames =
      some 200 :=
  (C5_percentage (some 200) "frame=  100 fps= 25.0").2.1 200 100 rfl
    (by decide) (by decide) (by decide)

/-! ## Claim C6: completion mapping -/

/-- Claim C6: for every completed encoder subprocess (any output lines and
exit code, with a completion callback registered), `wait_for_completion`
invokes the completion callback exactly once; exit code 0 maps to
`success = true`, any non-zero exit code to `success = false` with a
message containing that exit code. -/
theorem C6_completion (total : Option ℕ) (lines : List String) (code : ℤ) :
    (wait_for_completion total lines code true).finished_events.length = 1 ∧
    (code = 0 →
      (wait_for_completion total lines code true).result = true ∧
      (wait_for_completion total lines code true).finished_events =
        [(true, "Encoding completed successfully!")]) ∧
    (code ≠ 0 →
      (wait_for_completion total lines code true).result = false ∧
      ∃ pre post,
        (wait_for_completion total lines code true).finished_events =
          [(false, pre ++ toString code ++ post)]) := by
  by_cases hc : code = 0
  · subst hc
    refine ⟨by simp [wait_for_completion], fun _ => ?_, fun hne => absurd rfl hne⟩
    constructor <;> simp [wait_for_completion]
  · refine ⟨by simp [wait_for_completion, hc], fun h0 => absurd h0 hc, fun _ => ?_⟩
    refine ⟨by simp [wait_for_completion, hc], "Encoding failed with code ", "", ?_⟩
    simp [wait_for_completion, hc]

theorem C6_completion_witness :
    ((3 : ℤ) ≠ 0) ∧
    ((wait_for_completion (some 5) ["frame=    1 fps=0.0"] 3 true).result =
        false ∧
      ∃ pre post,
        (wait_for_completion (some 5) ["frame=    1 fps=0.0"] 3
            true).finished_events = [(false, pre ++ toString (3 : ℤ) ++ post)]) :=
  ⟨by decide, (C6_completion (some 5) ["frame=    1 fps=0.0"] 3).2.2 (by decide)⟩

/-! ## Claims C2-C4: filter graph and builder -/

/-- `p` is a prefix of `s` (the token classifiers of the filter-order
claim). -/
def strStartsWith (p s : String) : Bool := p.data.isPrefixOf s.data

/-- A rotate token of the filter string: `rotate=...` or `transpose=...`. -/
def isRotateTok (f : String) : Bool :=
  strStartsWith "rotate=" f || strStartsWith "transpose=" f

/-- A crop token of the filter string: `crop=...`. -/
def isCropTok (f : String) : Bool := strStartsWith "crop=" f

/-- Some rotate token occurs strictly before some crop token. -/
def rotateBeforeCrop : List String → Bool
  | [] => false
  | f :: rest => (isRotateTok f && rest.any isCropTok) || rotateBeforeCrop rest

theorem rotateBeforeCrop_append (pre l : List String)
    (h : rotateBeforeCrop l = true) : rotateBeforeCrop (pre ++ l) = true := by
  induction pre with
  | nil => simpa using h
  | cons x xs ih =>
    rw [List.cons_append, rotateBeforeCrop]
    rw [ih]
    simp

theorem rotateBeforeCrop_of (r cTok : String) (mid post : List String)
    (hr : isRotateTok r = true) (hc : isCropTok cTok = true) :
    rotateBeforeCrop (r :: (mid ++ cTok :: post)) = true := by
  rw [rotateBeforeCrop, hr]
  simp [List.any_append, hc]

theorem strStartsWith_append (p s : String) :
    strStartsWith p (p ++ s) = true := by
  rw [strStartsWith, String.data_append]
  exact List.isPrefixOf_iff_prefix.2 (List.prefix_append _ _)

theorem strStartsWith_append_append (p a b : String) :
    strStartsWith p (p ++ a ++ b) = true := by
  rw [strStartsWith, String.data_append, String.data_append,
    List.append_assoc]
  exact List.isPrefixOf_iff_prefix.2 (List.prefix_append _ _)

theorem ne_empty_of_startsWith (p s : String)
    (h : strStartsWith p s = true) (hp : p.data ≠ []) : s ≠ "" := by
  intro hs
  subst hs
  rw [strStartsWith] at h
  have hpre := List.isPrefixOf_iff_prefix.1 h
  have : p.data = [] := List.prefix_nil.1 (by simpa using hpre)
  exact hp this

theorem isRotateTok_buildRotate (a : ℚ) (ha : a ≠ 0) :
    isRotateTok (buildRotateFilter a) = true := by
  rw [buildRotateFilter, if_neg ha]
  split_ifs with h1 h2 h3
  · decide
  · decide
  · decide
  · rw [isRotateTok, strStartsWith_append_append]
    simp

theorem buildRotate_ne_empty (a : ℚ) (ha : a ≠ 0) :
    buildRotateFilter a ≠ "" := by
  have h := isRotateTok_buildRotate a ha
  rw [isRotateTok, Bool.or_eq_true] at h
  rcases h with h | h
  · exact ne_empty_of_startsWith _ _ h (by decide)
  · exact ne_empty_of_startsWith _ _ h (by decide)

theorem isCropTok_buildCrop (c : EncodingConfig) :
    isCropTok (buildCropFilter c) = true := by
  rw [isCropTok, buildCropFilter, strStartsWith]
  simp only [String.data_append, List.append_assoc]
  exact List.isPrefixOf_iff_prefix.2 (List.prefix_append _ _)

theorem buildCrop_ne_empty (c : EncodingConfig) : buildCropFilter c ≠ "" :=
  ne_empty_of_startsWith _ _ (isCropTok_buildCrop c) (by decide)

/-- Claim C2 (amended: the rotate token precedes the crop token whenever
rotate and crop are both enabled and the rotation angle is non-zero; with
angle 0 the source emits no rotate filter at all, see
`C2_filter_order_cex`): in the generated filter list a rotate token
(`rotate=`/`transpose=`) occurs before the `crop=` token, and for every
configuration whatsoever the `format=` token is the last filter. -/
theorem C2_filter_order (c : EncodingConfig) :
    (c.rotate_enabled = true → c.crop_enabled = true → c.rotate_angle ≠ 0 →
      rotateBeforeCrop (filterList c) = true) ∧
    (filterList c).getLast? = some ("format=" ++ c.pixel_format) := by
  constructor
  · intro hrot hcrop hang
    have hrNe := buildRotate_ne_empty c.rotate_angle hang
    have hcNe := buildCrop_ne_empty c
    simp only [filterList, hrot, hcrop, if_true, hrNe, hcNe, ne_eq,
      not_false_eq_true, List.append_assoc, List.singleton_append]
    apply rotateBeforeCrop_append
    apply rotateBeforeCrop_append
    apply rotateBeforeCrop_append
    exact rotateBeforeCrop_of _ _ _ _
      (isRotateTok_buildRotate c.rotate_angle hang) (isCropTok_buildCrop c)
  · simp only [filterList]
    exact List.getLast?_concat _

/-- Concrete configurations used to instantiate the builder claims. -/
def sampleConfig : EncodingConfig :=
  { input_folder := "/in", output_folder := "/out" }

/-- `sampleConfig` with rotate enabled at angle 0 and crop enabled. -/
def rotateZeroCropConfig : EncodingConfig :=
  { sampleConfig with
    rotate_enabled := true
    rotate_angle := 0
    crop_enabled := true }

/-- `sampleConfig` with rotate enabled at angle 90 and crop enabled. -/
def rotate90CropConfig : EncodingConfig :=
  { sampleConfig with
    rotate_enabled := true
    rotate_angle := 90
    crop_enabled := true }

/-- Claim C2 counterexample: rotate and crop both enabled but with rotation
angle 0 — the source's `_build_rotate_filter` returns the empty string and
`_add_filter_options` appends no rotate token, so no rotate token precedes
`crop=` in the filter list. -/
theorem C2_filter_order_cex :
    rotateZeroCropConfig.rotate_enabled = true ∧
    rotateZeroCropConfig.crop_enabled = true ∧
    rotateBeforeCrop (filterList rotateZeroCropConfig) = false := by
  refine ⟨rfl, rfl, ?_⟩
  decide

theorem C2_filter_order_witness :
    rotate90CropConfig.rotate_enabled = true ∧
    rotateBeforeCrop (filterList rotate90CropConfig) = true :=
  ⟨rfl, (C2_filter_order rotate90CropConfig).1 rfl rfl (by decide)⟩

/-- Claim C3: the argument-list builder is deterministic — two `build`
calls on builders with identical configuration and executable path produce
identical ordered argument lists, regardless of any stale contents of the
`command_parts` buffer (the method starts by resetting it). -/
theorem C3_build_deterministic (b₁ b₂ : FFmpegCommandBuilder)
    (hcfg : b₁.config = b₂.config) (hpath : b₁.ffmpeg_path = b₂.ffmpeg_path) :
    b₁.build.1 = b₂.build.1 := by
  simp [FFmpegCommandBuilder.build, hcfg, hpath]

theorem C3_build_deterministic_witness :
    (FFmpegCommandBuilder.build
      { config := sampleConfig, ffmpeg_path := "ffmpeg",
        command_parts := [] }).1 =
    (FFmpegCommandBuilder.build
      { config := sampleConfig, ffmpeg_path := "ffmpeg",
        command_parts := ["stale", "-y", "leftover"] }).1 :=
  C3_build_deterministic _ _ rfl rfl

/-- Claim C4 (amended: the generic `rotate=<angle>*PI/180` filter is
produced for every non-zero angle other than 90/180/270; for angle 0 the
source returns the empty string, i.e. no rotate filter, see
`C4_rotate_selection_cex`): for every configuration with rotation enabled,
angle 90 yields `transpose=1`, 180 yields `transpose=2,transpose=2`, 270
yields `transpose=2`, and any other non-zero angle the generic `rotate`
filter filled with black. -/
theorem C4_rotate_selection (c : EncodingConfig)
    (_hrot : c.rotate_enabled = true) :
    (c.rotate_angle = 90 →
      buildRotateFilter c.rotate_angle = "transpose=1") ∧
    (c.rotate_angle = 180 →
      buildRotateFilter c.rotate_angle = "transpose=2,transpose=2") ∧
    (c.rotate_angle = 270 →
      buildRotateFilter c.rotate_angle = "transpose=2") ∧
    (c.rotate_angle = 0 → buildRotateFilter c.rotate_angle = "") ∧
    (c.rotate_angle ≠ 0 → c.rotate_angle ≠ 90 → c.rotate_angle ≠ 180 →
      c.rotate_angle ≠ 270 →
      buildRotateFilter c.rotate_angle =
        "rotate=" ++ pyFloatStr c.rotate_angle ++
          "*PI/180:c=black:ow='iw':oh='ih'") := by
  refine ⟨?_, ?_, ?_, ?_, ?_⟩
  · intro h; rw [h]; decide
  · intro h; rw [h]; decide
  · intro h; rw [h]; decide
  · intro h; rw [h]; decide
  · intro h0 h90 h180 h270
    rw [buildRotateFilter, if_neg h0, if_neg h90, if_neg h180, if_neg h270]

/-- Claim C4 counterexample: with rotation enabled and angle 0 (an angle
other than 90/180/270) the rotate-filter builder yields the empty string —
no `rotate=` filter at all — rather than the generic `rotate=0*PI/180`
filter the claim requires. -/
theorem C4_rotate_selection_cex :
    rotateZeroCropConfig.rotate_enabled = true ∧
    buildRotateFilter rotateZeroCropConfig.rotate_angle = "" ∧
    isRotateTok (buildRotateFilter rotateZeroCropConfig.rotate_angle) =
      false := by
  refine ⟨rfl, ?_, ?_⟩ <;> decide

theorem C4_rotate_selection_witness :
    rotate90CropConfig.rotate_angle = 90 ∧
    buildRotateFilter rotate90CropConfig.rotate_angle = "transpose=1" :=
  ⟨by decide, (C4_rotate_selection rotate90CropConfig rfl).1 (by decide)⟩

/-! ## Claim C9: concat manifest -/

/-- Claim C9: the generated concat manifest is exactly one newline-
terminated line `file '<escaped path>'` per image, over an ascending
(string-)sorted permutation of the input paths, with backslashes replaced
by forward slashes and single quotes escaped (both inside
`escapeConcatPath`). -/
theorem C9_concat_manifest (image_files : List String) :
    ∃ l : List String, l.Perm image_files ∧
      List.Pairwise (fun a b => a ≤ b) l ∧
      generate_concat_file image_files =
        String.join (l.map fun p => "file '" ++ escapeConcatPath p ++ "'\n") := by
  refine ⟨image_files.mergeSort (fun a b => a ≤ b), List.mergeSort_perm _ _,
    ?_, ?_⟩
  · have hs := @List.sorted_mergeSort String
      (fun a b : String => decide (a ≤ b))
      (fun a b c hab hbc => by
        simp only [decide_eq_true_eq] at *
        exact le_trans hab hbc)
      (fun a b => by
        simp only [Bool.or_eq_true, decide_eq_true_eq]
        exact le_total a b)
      image_files
    exact hs.imp fun h => by simpa using h
  · rw [generate_concat_file]
    rw [show ∀ ls : List String, String.join ls = ls.foldl (· ++ ·) "" from
      fun _ => rfl]
    rw [List.foldl_map]
    rfl

/-! ## Claim C10: concat mode without a manifest -/

theorem lookup_getD_mem {α β : Type} [BEq α] (l : List (α × β)) (a : α)
    (d : β) : (l.lookup a).getD d ∈ d :: l.map Prod.snd := by
  induction l with
  | nil => simp [List.lookup]
  | cons kv rest ih =>
    obtain ⟨k, v⟩ := kv
    rw [List.lookup]
    rcases h : a == k with _ | _
    · simp only [h]
      rcases List.mem_cons.1 ih with hh | hh
      · simp [hh]
      · simp [List.mem_cons, hh]
    · simp [h]

theorem mem_data_ne (ch : Char) (s t : String) (hs : ch ∈ s.data)
    (ht : ch ∉ t.data) : t ≠ s := by
  intro h
  rw [h] at ht
  exact ht hs

theorem joinComma_mem_data (l : List String) (s : String) (hs : s ∈ l)
    (ch : Char) (hch : ch ∈ s.data) : ch ∈ (joinComma l).data := by
  induction l with
  | nil => simp at hs
  | cons x rest ih =>
    match rest, ih with
    | [], _ =>
      have hx : s = x := by simpa using hs
      subst hx
      exact hch
    | y :: ys, ih =>
      rcases List.mem_cons.1 hs with rfl | hs
      · rw [joinComma, String.data_append, String.data_append]
        exact List.mem_append_left _ (List.mem_append_left _ hch)
      · rw [joinComma, String.data_append]
        exact List.mem_append_right _ (ih hs)

theorem format_mem_filterList (c : EncodingConfig) :
    ("format=" ++ c.pixel_format) ∈ filterList c := by
  simp only [filterList]
  exact List.mem_append_right _ (List.mem_singleton.2 rfl)

theorem eq_mem_data_of_join (c : EncodingConfig) :
    '=' ∈ (joinComma (filterList c)).data := by
  refine joinComma_mem_data _ _ (format_mem_filterList c) '=' ?_
  rw [String.data_append]
  exact List.mem_append_left _ (by decide)

theorem badTok_not_in_filterOpts (c : EncodingConfig) (tok : String)
    (htok : tok = "-f" ∨ tok = "-i" ∨ tok = "-framerate") :
    tok ∉ filterOpts c := by
  intro hmem
  rw [filterOpts] at hmem
  split_ifs at hmem with hne
  · rcases List.mem_cons.1 hmem with rfl | hmem
    · rcases htok with h | h | h <;> simp at h
    · have hj : tok = joinComma (filterList c) := List.mem_singleton.1 hmem
      have heq := eq_mem_data_of_join c
      rw [← hj] at heq
      rcases htok with rfl | rfl | rfl <;> revert heq <;> decide
  · simp at hmem

theorem badTok_not_in_codecOpts (c : EncodingConfig) (tok : String)
    (htok : tok = "-f" ∨ tok = "-i" ∨ tok = "-framerate")
    (hc : tok ≠ c.codec) (hp : tok ≠ c.preset) (hpr : tok ≠ c.profile)
    (hl : tok ≠ c.level) : tok ∉ codecOpts c := by
  have hprof : mapProfileToH265 c.profile ∈
      "main" :: h265ProfileMap.map Prod.snd :=
    lookup_getD_mem h265ProfileMap c.profile "main"
  have hav1 : mapPresetToAv1 c.preset ∈ (5 : ℕ) :: av1PresetMap.map Prod.snd :=
    lookup_getD_mem av1PresetMap c.preset 5
  have hprofs : ∀ v ∈ ("main" :: h265ProfileMap.map Prod.snd),
      v ≠ "-f" ∧ v ≠ "-i" ∧ v ≠ "-framerate" := by decide
  have hav1s : ∀ v ∈ ((5 : ℕ) :: av1PresetMap.map Prod.snd),
      toString v ≠ "-f" ∧ toString v ≠ "-i" ∧ toString v ≠ "-framerate" := by
    decide
  have hbadprof : tok ≠ mapProfileToH265 c.profile := by
    have h := hprofs _ hprof
    rcases htok with rfl | rfl | rfl
    · exact fun hx => h.1 hx.symm
    · exact fun hx => h.2.1 hx.symm
    · exact fun hx => h.2.2 hx.symm
  have hbadav1 : tok ≠ toString (mapPresetToAv1 c.preset) := by
    have h := hav1s _ hav1
    rcases htok with rfl | rfl | rfl
    · exact fun hx => h.1 hx.symm
    · exact fun hx => h.2.1 hx.symm
    · exact fun hx => h.2.2 hx.symm
  have hlit : tok ≠ "-c:v" ∧ tok ≠ "-preset" ∧ tok ≠ "-profile:v" ∧
      tok ≠ "-tag:v" ∧ tok ≠ "hvc1" ∧ tok ≠ "-level" := by
    rcases htok with rfl | rfl | rfl <;> refine ⟨?_, ?_, ?_, ?_, ?_, ?_⟩ <;>
      decide
  intro hmem
  simp only [codecOpts] at hmem
  split_ifs at hmem <;>
    simp only [List.mem_append, List.mem_cons, List.mem_singleton,
      List.not_mem_nil, or_false, false_or] at hmem <;>
    tauto

/-- Claim C10: when the sequence info demands concat mode but no
concat-manifest path has been set, `build` still returns without error,
its input stage contributes no arguments at all (no `-f concat`, no `-i`,
no `-framerate`), and the filter, codec, quality and output stages are
still emitted. The token-absence part is stated for the whole argument
list under the hygiene hypothesis that the free-string configuration
fields (executable path, codec/preset/profile/level names, CRF rendering,
user custom arguments, output path) are not themselves one of the three
input-stage tokens. -/
theorem C10_concat_without_manifest (c : EncodingConfig) (path : String)
    (si : SequenceInfo) (hsi : c.sequence_info = some si)
    (huc : si.use_concat = true) (hcf : si.concat_file = none)
    (hhyg : ∀ t ∈ (["-f", "-i", "-framerate"] : List String),
      t ≠ path ∧ t ≠ c.codec ∧ t ≠ c.preset ∧ t ≠ c.profile ∧ t ≠ c.level ∧
      t ≠ toString c.crf ∧ t ∉ c.custom_args ∧ t ≠ c.output_path) :
    inputOpts c = [] ∧
    buildCommand path c = path :: "-y" :: (filterOpts c ++ codecOpts c ++
      qualityOpts c ++ outputOpts c ++ [c.output_path]) ∧
    ∀ t ∈ (["-f", "-i", "-framerate"] : List String),
      t ∉ buildCommand path c := by
  have huc' : c.useConcat = true := by
    rw [EncodingConfig.useConcat, hsi]; exact huc
  have hin : inputOpts c = [] := by
    rw [inputOpts, if_pos huc', hsi]
    simp [hcf]
  refine ⟨hin, ?_, ?_⟩
  · rw [buildCommand, hin, List.nil_append]
  · intro t ht
    have hyg := hhyg t ht
    have htok : t = "-f" ∨ t = "-i" ∨ t = "-framerate" := by simpa using ht
    have hq : t ∉ qualityOpts c := by
      intro hm
      rw [qualityOpts] at hm
      rcases List.mem_cons.1 hm with rfl | hm
      · rcases htok with h | h | h <;> simp at h
      · exact hyg.2.2.2.2.2.1 (List.mem_singleton.1 hm)
    have ho : t ∉ outputOpts c := by
      intro hm
      rw [outputOpts, List.mem_append] at hm
      rcases hm with hm | hm
      · split_ifs at hm
        · rcases List.mem_cons.1 hm with rfl | hm
          · rcases htok with h | h | h <;> simp at h
          · have hv := List.mem_singleton.1 hm
            rcases htok with rfl | rfl | rfl <;> simp at hv
        · simp at hm
      · split_ifs at hm
        · exact hyg.2.2.2.2.2.2.1 hm
        · simp at hm
    intro hmem
    rw [buildCommand, hin, List.nil_append] at hmem
    simp only [List.mem_cons, List.mem_append, List.mem_singleton,
      List.not_mem_nil, or_false] at hmem
    rcases hmem with rfl | rfl | hmem
    · exact hyg.1 rfl
    · rcases htok with h | h | h <;> simp at h
    rcases hmem with (((hf | hc2) | hq2) | ho2) | rfl
    · exact badTok_not_in_filterOpts c t htok hf
    · exact badTok_not_in_codecOpts c t htok hyg.2.1 hyg.2.2.1 hyg.2.2.2.1
        hyg.2.2.2.2.1 hc2
    · exact hq hq2
    · exact ho ho2
    · exact hyg.2.2.2.2.2.2.2 rfl

/-- A gapped sequence in concat mode whose manifest has not been written. -/
def gapSequenceInfo : SequenceInfo :=
  { pattern := "IMG_%04d.jpg"
    count := 2
    start_number := 1
    end_number := 3
    image_width := 640
    image_height := 480
    image_format := "JPEG"
    has_gaps := true
    gaps := [2]
    needs_padding := false
    use_concat := true
    concat_file := none }

/-- `sampleConfig` merged with the gapped sequence info. -/
def concatNoManifestConfig : EncodingConfig :=
  { sampleConfig with sequence_info := some gapSequenceInfo }

theorem C10_concat_without_manifest_witness :
    inputOpts concatNoManifestConfig = [] ∧
    buildCommand "ffmpeg" concatNoManifestConfig =
      "ffmpeg" :: "-y" :: (filterOpts concatNoManifestConfig ++
        codecOpts concatNoManifestConfig ++
        qualityOpts concatNoManifestConfig ++
        outputOpts concatNoManifestConfig ++
        [concatNoManifestConfig.output_path]) ∧
    ∀ t ∈ (["-f", "-i", "-framerate"] : List String),
      t ∉ buildCommand "ffmpeg" concatNoManifestConfig :=
  C10_concat_without_manifest concatNoManifestConfig "ffmpeg" gapSequenceInfo
    rfl rfl rfl (by decide)
